import Mathlib

/-!
Verification of the YANG-to-JSON-Schema compiler (pyang plugin `jsonschema.py`).

The embedding mirrors the source file:
* `JVal` models the JSON values built by the plugin; Python dicts are
  insertion-ordered association lists whose assignment (`setAssoc`) replaces an
  existing key's value in place and otherwise appends at the end, exactly like
  a Python dict.
* `Stmt` models a resolved pyang statement: its `keyword`, `arg`, its raw
  substatements (what `search` / `search_one` walk), its computed schema-tree
  children `i_children`, the owning module name `i_module` (pyang sets
  `i_module` on every statement of a resolved tree), the optional
  config-applicability flag `i_config` (`none` models a missing attribute),
  and `i_typedef`, which in pyang is a direct reference to the resolved
  typedef statement.  To make cyclic typedef chains representable, the
  embedding carries that reference as an identifier resolved through a finite
  environment `TdEnv`; an identifier that does not resolve behaves like an
  absent reference.
* `produce_type` is fuel-indexed (returning `none` on fuel exhaustion) because
  typedef chains may be cyclic; a computable fuel bound is proved sufficient.
-/

inductive JVal where
  | str (s : String)
  | bool (b : Bool)
  | num (n : Nat)
  | arr (items : List JVal)
  | obj (fields : List (String × JVal))
deriving Repr

/-- Python dict lookup. -/
def lookupAssoc : List (String × JVal) → String → Option JVal
  | [], _ => none
  | (k', v') :: rest, k => if k' = k then some v' else lookupAssoc rest k

/-- Python dict assignment `d[k] = v`: replaces in place, or appends. -/
def setAssoc : List (String × JVal) → String → JVal → List (String × JVal)
  | [], k, v => [(k, v)]
  | (k', v') :: rest, k, v =>
      if k' = k then (k, v) :: rest else (k', v') :: setAssoc rest k v

/-- Python `base.update(new)`: assign each binding of `new` in order. -/
def updateAssoc (base new : List (String × JVal)) : List (String × JVal) :=
  new.foldl (fun b p => setAssoc b p.1 p.2) base

abbrev Defs := List (String × JVal)
abbrev Props := List (String × JVal)

/-- The plugin options read by the core (`ctx.opts`). -/
structure Opts where
  schema_debug : Bool
  schema_no_ns : Bool
  schema_config_only : Bool
deriving DecidableEq, Repr

/-- A resolved pyang statement, as accessed by the plugin. -/
inductive Stmt where
  | mk (keyword : String) (arg : String)
       (substmts : List Stmt) (i_children : List Stmt)
       (i_module : String) (i_config : Option Bool)
       (i_typedef : Option String) : Stmt
deriving Repr

def Stmt.keyword : Stmt → String
  | .mk k _ _ _ _ _ _ => k

def Stmt.arg : Stmt → String
  | .mk _ a _ _ _ _ _ => a

def Stmt.substmts : Stmt → List Stmt
  | .mk _ _ ss _ _ _ _ => ss

def Stmt.i_children : Stmt → List Stmt
  | .mk _ _ _ ics _ _ _ => ics

def Stmt.i_module : Stmt → String
  | .mk _ _ _ _ m _ _ => m

def Stmt.i_config : Stmt → Option Bool
  | .mk _ _ _ _ _ c _ => c

def Stmt.i_typedef : Stmt → Option String
  | .mk _ _ _ _ _ _ td => td

/-- pyang `stmt.search(kw)`: all substatements with the given keyword. -/
def Stmt.search (s : Stmt) (kw : String) : List Stmt :=
  s.substmts.filter (fun c => c.keyword = kw)

/-- pyang `stmt.search_one(kw)`: the first substatement with the keyword. -/
def Stmt.search_one (s : Stmt) (kw : String) : Option Stmt :=
  (s.search kw).head?

/-- The typedef environment: resolves the `i_typedef` reference carried by a
`type` statement to the typedef statement it points at. -/
abbrev TdEnv := List (String × Stmt)

def resolveTypedef (env : TdEnv) (t : Stmt) : Option Stmt :=
  t.i_typedef.bind (fun id => List.lookup id env)

/-- The `$defs` key computed for a typedef (`jsonschema.py` lines 284-287). -/
def defKey (opts : Opts) (typedef : Stmt) : String :=
  if opts.schema_no_ns then typedef.arg
  else typedef.i_module ++ "_" ++ typedef.arg

def refFrag (k : String) : JVal :=
  .obj [("$ref", .str ("#/$defs/" ++ k))]

def strFrag : JVal := .obj [("type", .str "string")]

def intFrag : JVal := .obj [("type", .str "integer")]

def int64Frag : JVal :=
  .obj [("type", .str "string"), ("pattern", .str "^-?[0-9]+$")]

def emptyFrag : JVal :=
  .obj [("type", .str "array"),
        ("prefixItems", .arr [.obj [("type", .str "null")]]),
        ("maxItems", .num 1)]

/-- Set a key on an object fragment (Python `schema[k] = v`). -/
def setObjKey : JVal → String → JVal → JVal
  | .obj fs, k, v => .obj (setAssoc fs k v)
  | other, _, _ => other

/-- Lookup a key on an object fragment. -/
def lookupObjKey : JVal → String → Option JVal
  | .obj fs, k => lookupAssoc fs k
  | _, _ => none

/-- The enumeration block of `annotate_schema` (lines 217-228): for an
`enumeration`-typed statement, one text block listing the enum values that
carry their own description; empty when there is nothing to say. -/
def enum_desc_block (stmt : Stmt) : List String :=
  match stmt.search_one "type" with
  | some ts =>
      if ts.arg = "enumeration" then
        let enum_descs := (ts.search "enum").filterMap (fun en =>
          (en.search_one "description").map (fun d => en.arg ++ ": " ++ d.arg.trim))
        if enum_descs.isEmpty then []
        else ["Supported values:\n" ++
              String.intercalate "\n" (enum_descs.map (fun d => "  * " ++ d))]
      else []
  | none => []

/-- The list of description paragraphs collected by `annotate_schema`
(lines 209-233): base description, enumeration block, `when` conditions. -/
def desc_list (stmt : Stmt) : List String :=
  (match stmt.search_one "description" with
   | some d => [d.arg]
   | none => [])
  ++ enum_desc_block stmt
  ++ (stmt.search "when").map (fun w => "Condition: " ++ w.arg)

/-- `annotate_schema` on a present (dict) fragment: sets `description` when
there is something to say, otherwise returns the fragment unchanged. -/
def annotate_obj (stmt : Stmt) (schema : JVal) : JVal :=
  let descriptions := desc_list stmt
  if descriptions.isEmpty then schema
  else setObjKey schema "description" (JVal.str (String.intercalate "\n\n" descriptions))

/-- `annotate_schema` (lines 205-238): the `None` sentinel passes through. -/
def annotate_schema (stmt : Stmt) (schema : Option JVal) : Option JVal :=
  match schema with
  | none => none
  | some v => some (annotate_obj stmt v)

/-- The union-member comprehension of line 330, threading `defs` left to
right in declaration order; `f` is the `produce_type` call at the current
fuel level. -/
def produce_type_list (f : Stmt → Defs → Option (JVal × Defs)) :
    List Stmt → Defs → Option (List JVal × Defs)
  | [], defs => some ([], defs)
  | m :: ms, defs =>
    match f m defs with
    | none => none
    | some (v, d1) =>
      match produce_type_list f ms d1 with
      | none => none
      | some (vs, d2) => some (v :: vs, d2)

/-- `produce_type` (lines 276-334), fuel-indexed: `none` means the fuel ran
out before the computation finished.  The state `defs` is the shared
definitions dictionary (`self.definitions`). -/
def produce_type (env : TdEnv) (opts : Opts) :
    Nat → Option Stmt → Defs → Option (JVal × Defs)
  | _, none, defs => some (strFrag, defs)
  | 0, some _, _ => none
  | fuel + 1, some t, defs =>
    match resolveTypedef env t with
    | some typedef =>
      let def_key := defKey opts typedef
      if (lookupAssoc defs def_key).isSome then
        some (refFrag def_key, defs)
      else
        let defs1 := setAssoc defs def_key (JVal.obj [])
        match produce_type env opts fuel (typedef.search_one "type") defs1 with
        | none => none
        | some (base_schema, defs2) =>
          some (refFrag def_key,
                setAssoc defs2 def_key (annotate_obj typedef base_schema))
    | none =>
      let tn := t.arg
      if tn = "int8" ∨ tn = "int16" ∨ tn = "int32" ∨
         tn = "uint8" ∨ tn = "uint16" ∨ tn = "uint32" then
        some (intFrag, defs)
      else if tn = "int64" ∨ tn = "uint64" then
        some (int64Frag, defs)
      else if tn = "decimal64" then
        some (.obj [("type", .str "string"),
                    ("pattern", .str "^-?[0-9]+\\.[0-9]+$")], defs)
      else if tn = "string" then
        match t.search_one "pattern" with
        | some p => some (.obj [("type", .str "string"),
                                ("pattern", .str p.arg)], defs)
        | none => some (strFrag, defs)
      else if tn = "boolean" then
        some (.obj [("type", .str "boolean")], defs)
      else if tn = "enumeration" then
        some (.obj [("type", .str "string"),
                    ("enum", .arr ((t.search "enum").map (fun e => .str e.arg)))],
              defs)
      else if tn = "empty" then
        some (emptyFrag, defs)
      else if tn = "union" then
        match produce_type_list (fun m d => produce_type env opts fuel (some m) d)
                (t.search "type") defs with
        | none => none
        | some (frags, defs2) => some (.obj [("anyOf", .arr frags)], defs2)
      else
        some (strFrag, defs)



/-- The computed children list is structurally smaller than its statement. -/
theorem Stmt.sizeOf_i_children_lt (c : Stmt) : sizeOf c.i_children < sizeOf c := by
  cases c with
  | mk k a ss ics m cfg td => simp [Stmt.i_children]; omega

/-- The kinds handled by the producer dispatch table (lines 338-346). -/
def producerKeywords : List String :=
  ["container", "list", "leaf-list", "leaf", "choice", "anydata", "anyxml"]

/-- `qualify_name` (lines 187-202).  The embedding passes the structural
parent explicitly (`stmt.parent` in the source); in a resolved pyang tree
every statement carries `i_module`, so the `getattr` default never fires. -/
def qualify_name (parent stmt : Stmt) : String :=
  if stmt.keyword = "rpc" ∨ stmt.keyword = "action" then
    stmt.i_module ++ ":" ++ stmt.arg
  else
    let is_top_level := parent.keyword = "module" ∨ parent.keyword = "submodule"
    if is_top_level ∨ stmt.i_module ≠ parent.i_module then
      stmt.i_module ++ ":" ++ stmt.arg
    else
      stmt.arg

/-- `produce_leaf` (lines 271-273). -/
def produce_leaf (env : TdEnv) (opts : Opts) (fuel : Nat) (c : Stmt)
    (config_filter : Bool) (defs : Defs) : Option (Option JVal × Defs) :=
  match produce_type env opts fuel (c.search_one "type") defs with
  | none => none
  | some (schema, d1) => some (some (annotate_obj c schema), d1)

/-- `produce_leaf_list` (lines 262-268). -/
def produce_leaf_list (env : TdEnv) (opts : Opts) (fuel : Nat) (c : Stmt)
    (config_filter : Bool) (defs : Defs) : Option (Option JVal × Defs) :=
  match produce_type env opts fuel (c.search_one "type") defs with
  | none => none
  | some (items, d1) =>
    some (some (annotate_obj c (.obj [("type", .str "array"), ("items", items)])), d1)

/-- The loop body of `produce_children` (lines 165-184): walk the children,
skip config-false children when filtering, dispatch on keyword (through `f`,
the producer dispatch at the current fuel level), and store truthy fragments
under their qualified name.  `props` is the accumulating dict. -/
def produce_children_list (f : Stmt → Bool → Defs → Option (Option JVal × Defs))
    (parent : Stmt) :
    List Stmt → Bool → Props → Defs → Option (Props × Defs)
  | [], _, props, defs => some (props, defs)
  | c :: cs, config_filter, props, defs =>
    if config_filter ∧ c.i_config = some false then
      produce_children_list f parent cs config_filter props defs
    else if producerKeywords.contains c.keyword then
      match f c config_filter defs with
      | none => none
      | some (oschema, d1) =>
        match oschema with
        | some schema =>
          produce_children_list f parent cs config_filter
            (setAssoc props (qualify_name parent c) schema) d1
        | none => produce_children_list f parent cs config_filter props d1
    else
      produce_children_list f parent cs config_filter props defs

/-- `produce_container` (lines 241-247); `f` is the producer dispatch used
for the recursive `produce_children` call. -/
def produce_container (f : Stmt → Bool → Defs → Option (Option JVal × Defs))
    (c : Stmt) (config_filter : Bool) (defs : Defs) :
    Option (Option JVal × Defs) :=
  match produce_children_list f c c.i_children config_filter [] defs with
  | none => none
  | some (props, d1) =>
    some (some (annotate_obj c
            (.obj [("type", .str "object"), ("properties", .obj props),
                   ("additionalProperties", .bool false)])), d1)

/-- `produce_list` (lines 250-259). -/
def produce_list (f : Stmt → Bool → Defs → Option (Option JVal × Defs))
    (c : Stmt) (config_filter : Bool) (defs : Defs) :
    Option (Option JVal × Defs) :=
  match produce_children_list f c c.i_children config_filter [] defs with
  | none => none
  | some (props, d1) =>
    some (some (annotate_obj c
            (.obj [("type", .str "array"),
                   ("items", .obj [("type", .str "object"), ("properties", .obj props),
                                   ("additionalProperties", .bool false)])])), d1)

/-- The producer dispatch (lines 338-346), fuel-indexed like `produce_type`:
`choice` yields the absent sentinel, `anydata`/`anyxml` an opaque object. -/
def produce_node (env : TdEnv) (opts : Opts) :
    Nat → Stmt → Bool → Defs → Option (Option JVal × Defs)
  | 0, _, _, _ => none
  | fuel + 1, c, config_filter, defs =>
    if c.keyword = "container" then
      produce_container (produce_node env opts fuel) c config_filter defs
    else if c.keyword = "list" then
      produce_list (produce_node env opts fuel) c config_filter defs
    else if c.keyword = "leaf-list" then
      produce_leaf_list env opts fuel c config_filter defs
    else if c.keyword = "leaf" then
      produce_leaf env opts fuel c config_filter defs
    else if c.keyword = "choice" then
      some (none, defs)
    else if c.keyword = "anydata" ∨ c.keyword = "anyxml" then
      some (some (.obj [("type", .str "object")]), defs)
    else
      some (none, defs)

/-- `produce_children` (lines 165-184). -/
def produce_children (env : TdEnv) (opts : Opts) (fuel : Nat) (stmt : Stmt)
    (config_filter : Bool) (defs : Defs) : Option (Props × Defs) :=
  produce_children_list (produce_node env opts fuel) stmt stmt.i_children
    config_filter [] defs

/-- `produce_operation` (lines 124-159): RPC/Action schema; `input`/`output`
are compiled with `config_filter=False`. -/
def produce_operation (env : TdEnv) (opts : Opts) (fuel : Nat) (stmt : Stmt)
    (defs : Defs) : Option (JVal × Defs) :=
  let descr : String :=
    match stmt.search_one "description" with
    | some d => d.arg
    | none => ""
  match
    (match stmt.search_one "input" with
     | none => some (([] : Props), defs)
     | some input_node =>
       match produce_children env opts fuel input_node false defs with
       | none => none
       | some (iprops, d1) =>
         some (setAssoc [] "input"
                 (JVal.obj [("type", .str "object"), ("properties", .obj iprops),
                            ("additionalProperties", .bool false)]), d1))
  with
  | none => none
  | some (props1, d1) =>
    match
      (match stmt.search_one "output" with
       | none => some (props1, d1)
       | some output_node =>
         match produce_children env opts fuel output_node false d1 with
         | none => none
         | some (oprops, d2) =>
           some (setAssoc props1 "output"
                   (JVal.obj [("type", .str "object"), ("properties", .obj oprops),
                              ("additionalProperties", .bool false)]), d2))
    with
    | none => none
    | some (props2, d2) =>
      some (annotate_obj stmt
              (JVal.obj [("type", .str "object"), ("description", .str descr),
                         ("properties", .obj props2),
                         ("additionalProperties", .bool false)]), d2)

mutual

/-- `find_actions` (lines 115-122): preorder search for nested `action`
statements, adding an operation schema for each. -/
def find_actions (env : TdEnv) (opts : Opts) (fuel : Nat) (stmt : Stmt)
    (operations : Props) (defs : Defs) : Option (Props × Defs) :=
  find_actions_go env opts fuel stmt stmt.i_children operations defs
termination_by (sizeOf stmt, 1)
decreasing_by
  exact Prod.Lex.left _ _ (Stmt.sizeOf_i_children_lt stmt)

def find_actions_go (env : TdEnv) (opts : Opts) (fuel : Nat) (parent : Stmt) :
    List Stmt → Props → Defs → Option (Props × Defs)
  | [], ops, defs => some (ops, defs)
  | c :: cs, ops, defs =>
    match
      (if c.keyword = "action" then
         match produce_operation env opts fuel c defs with
         | none => none
         | some (sch, d1) => some (setAssoc ops (qualify_name parent c) sch, d1)
       else some (ops, defs))
    with
    | none => none
    | some (ops1, d1) =>
      match find_actions env opts fuel c ops1 d1 with
      | none => none
      | some (ops2, d2) => find_actions_go env opts fuel parent cs ops2 d2
termination_by cs _ _ => (sizeOf cs, 0)

end

/-- The RPC scan of `emit` (lines 74-80): direct children with keyword
`rpc`. -/
def rpc_go (env : TdEnv) (opts : Opts) (fuel : Nat) (parent : Stmt) :
    List Stmt → Props → Defs → Option (Props × Defs)
  | [], ops, defs => some (ops, defs)
  | c :: cs, ops, defs =>
    if c.keyword = "rpc" then
      match produce_operation env opts fuel c defs with
      | none => none
      | some (sch, d1) =>
        rpc_go env opts fuel parent cs (setAssoc ops (qualify_name parent c) sch) d1
    else
      rpc_go env opts fuel parent cs ops defs

/-- The data pass of `emit` (lines 62-67): per-module `produce_children`
merged with `dict.update`. -/
def emit_data (env : TdEnv) (opts : Opts) (fuel : Nat) (config_filter : Bool) :
    List Stmt → Props → Defs → Option (Props × Defs)
  | [], props, defs => some (props, defs)
  | m :: ms, props, defs =>
    match produce_children env opts fuel m config_filter defs with
    | none => none
    | some (mod_props, d1) =>
      emit_data env opts fuel config_filter ms (updateAssoc props mod_props) d1

/-- The operations pass of `emit` (lines 71-83): RPC scan then nested-action
scan, per module. -/
def emit_ops (env : TdEnv) (opts : Opts) (fuel : Nat) :
    List Stmt → Props → Defs → Option (Props × Defs)
  | [], ops, defs => some (ops, defs)
  | m :: ms, ops, defs =>
    match rpc_go env opts fuel m m.i_children ops defs with
    | none => none
    | some (ops1, d1) =>
      match find_actions env opts fuel m ops1 d1 with
      | none => none
      | some (ops2, d2) => emit_ops env opts fuel ms ops2 d2

/-- JSON string escaping as performed by `json.dumps` for the characters the
plugin can emit. -/
def json_escape_char (c : Char) : String :=
  if c = '"' then "\\\""
  else if c = '\\' then "\\\\"
  else if c = '\n' then "\\n"
  else if c = '\t' then "\\t"
  else if c = '\r' then "\\r"
  else String.singleton c

def json_quote (s : String) : String :=
  "\"" ++ String.join (s.toList.map json_escape_char) ++ "\""

def jpad (n : Nat) : String :=
  String.mk (List.replicate n ' ')

mutual

/-- `json.dumps(v, indent=2)` on the values the plugin builds: objects and
arrays in insertion order, two-space indentation, `", "`/`": "` separators. -/
def jdump : Nat → JVal → String
  | _, .str s => json_quote s
  | _, .bool b => if b then "true" else "false"
  | _, .num n => toString n
  | _, .arr [] => "[]"
  | ind, .arr (x :: xs) =>
    "[\n" ++ jdump_items (ind + 2) (x :: xs) ++ "\n" ++ jpad ind ++ "]"
  | _, .obj [] => "\x7b\x7d"
  | ind, .obj (f :: fs) =>
    "\x7b\n" ++ jdump_fields (ind + 2) (f :: fs) ++ "\n" ++ jpad ind ++ "\x7d"
termination_by _ v => (sizeOf v, 0)

def jdump_items : Nat → List JVal → String
  | _, [] => ""
  | ind, [x] => jpad ind ++ jdump ind x
  | ind, x :: y :: xs =>
    jpad ind ++ jdump ind x ++ ",\n" ++ jdump_items ind (y :: xs)
termination_by _ xs => (sizeOf xs, 1)

def jdump_fields : Nat → List (String × JVal) → String
  | _, [] => ""
  | ind, [(k, v)] => jpad ind ++ json_quote k ++ ": " ++ jdump ind v
  | ind, (k, v) :: g :: fs =>
    jpad ind ++ json_quote k ++ ": " ++ jdump ind v ++ ",\n" ++
      jdump_fields ind (g :: fs)
termination_by _ fs => (sizeOf fs, 1)

end

def json_dumps (v : JVal) : String := jdump 0 v

/-- `JSONSchemaPlugin.emit` (lines 52-113).  `prev_definitions` models the
instance attribute `self.definitions` as left by any previous run; line 57
(`self.definitions = {}`) discards it before both passes. -/
def emit (env : TdEnv) (opts : Opts) (fuel : Nat) (modules : List Stmt)
    (prev_definitions : Defs) : Option String :=
  let definitions : Defs := []
  let apply_config_filter := opts.schema_config_only
  match emit_data env opts fuel apply_config_filter modules [] definitions with
  | none => none
  | some (data_properties, d1) =>
    match emit_ops env opts fuel modules [] d1 with
    | none => none
    | some (ops_properties, d2) =>
      let base : List (String × JVal) :=
        [("$schema", .str "https://json-schema.org/draft/2020-12/schema"),
         ("title", .str "YANG Model Schema"),
         ("type", .str "object"),
         ("properties", .obj
           [("data", .obj
              [("type", .str "object"), ("title", .str "Data Tree"),
               ("description", .str "The configuration and state data tree."),
               ("properties", .obj data_properties),
               ("additionalProperties", .bool false)]),
            ("operations", .obj
              [("type", .str "object"), ("title", .str "Operations"),
               ("description", .str "RPCs and Actions."),
               ("properties", .obj ops_properties),
               ("additionalProperties", .bool false)])])]
      -- lines 106-111: `$defs` is added, then deleted again when empty
      let result : List (String × JVal) :=
        if d2.isEmpty then base else base ++ [("$defs", .obj d2)]
      some (json_dumps (.obj result))

mutual

/-- Removes from every `i_children` list the nodes whose config flag is
explicitly false, recursively — the subtree the data pass skips when the
config filter is on. -/
def pruneCfg : Stmt → Stmt
  | .mk k a ss ics m cfg td => .mk k a ss (pruneCfgList ics) m cfg td

def pruneCfgList : List Stmt → List Stmt
  | [] => []
  | c :: cs =>
    if c.i_config = some false then pruneCfgList cs
    else pruneCfg c :: pruneCfgList cs

end

mutual

/-- Rewrites every `i_config` flag in a statement tree (substatements and
computed children alike) through `f`, leaving everything else intact. -/
def mapCfg (f : Option Bool → Option Bool) : Stmt → Stmt
  | .mk k a ss ics m cfg td =>
    .mk k a (mapCfgList f ss) (mapCfgList f ics) m (f cfg) td

def mapCfgList (f : Option Bool → Option Bool) : List Stmt → List Stmt
  | [] => []
  | c :: cs => mapCfg f c :: mapCfgList f cs

end

/-! ### The registry step invariant

For one completed `produce_type` call from state `defs` to state `defs'`
returning `frag`:
* every key present before is present after (the registry is append-only),
* distinctness of keys is preserved (a dict cannot hold a key twice),
* any empty-placeholder entry in `defs'` was already in `defs` — each
  placeholder inserted during the call is overwritten before the call
  that inserted it returns,
* `frag` itself is never the empty object. -/

def GoodStep (defs defs' : Defs) (frag : JVal) : Prop :=
  (∀ k, (lookupAssoc defs k).isSome → (lookupAssoc defs' k).isSome) ∧
  ((defs.map Prod.fst).Nodup → (defs'.map Prod.fst).Nodup) ∧
  (∀ k, lookupAssoc defs' k = some (JVal.obj []) →
        lookupAssoc defs k = some (JVal.obj [])) ∧
  frag ≠ JVal.obj []

def GoodStepD (defs defs' : Defs) : Prop :=
  (∀ k, (lookupAssoc defs k).isSome → (lookupAssoc defs' k).isSome) ∧
  ((defs.map Prod.fst).Nodup → (defs'.map Prod.fst).Nodup) ∧
  (∀ k, lookupAssoc defs' k = some (JVal.obj []) →
        lookupAssoc defs k = some (JVal.obj []))

/-! ### A sufficient fuel bound for `produce_type`

The recursion of `produce_type` descends either into a strictly smaller
statement (union members) or into a typedef whose `$defs` key it has just
inserted — so the number of environment-derived keys still missing from the
registry strictly decreases.  `ptBound` turns this into a computable fuel
amount. -/

mutual

def twSize : Stmt → Nat
  | .mk _ _ ss _ _ _ _ => 1 + twListSize ss

def twListSize : List Stmt → Nat
  | [] => 0
  | c :: cs => twSize c + twListSize cs

end

def twOpt : Option Stmt → Nat
  | none => 1
  | some t => twSize t

/-- The largest base-type weight over all typedefs of the environment. -/
def envMaxBase (env : TdEnv) : Nat :=
  env.foldr (fun p a => max (twOpt (p.2.search_one "type")) a) 0

def envC (env : TdEnv) : Nat := 1 + envMaxBase env

/-- How many of the environment's `$defs` keys are still absent from the
registry. -/
def missingCount (opts : Opts) (env : TdEnv) (defs : Defs) : Nat :=
  ((env.map (fun p => defKey opts p.2)).toFinset.filter
    (fun k => ¬ (lookupAssoc defs k).isSome)).card

/-- Fuel sufficient for `produce_type env opts · ot defs`. -/
def ptBound (env : TdEnv) (opts : Opts) (defs : Defs) (ot : Option Stmt) : Nat :=
  missingCount opts env defs * envC env + twOpt ot

/-- The type names given a specific mapping by `produce_type`
(lines 301-331); anything else falls to the `\x7btype: string\x7d` fallback. -/
def knownTypeNames : List String :=
  ["int8", "int16", "int32", "uint8", "uint16", "uint32", "int64", "uint64",
   "decimal64", "string", "boolean", "enumeration", "empty", "union"]

/-! ### Concrete statements used as witness inputs -/

def exOpts : Opts := ⟨false, false, false⟩

def exTString : Stmt := .mk "type" "string" [] [] "m" none none

def exTInt32 : Stmt := .mk "type" "int32" [] [] "m" none none

def exTUint64 : Stmt := .mk "type" "uint64" [] [] "m" none none

def exTEmpty : Stmt := .mk "type" "empty" [] [] "m" none none

def exTUnion : Stmt := .mk "type" "union" [exTString, exTInt32] [] "m" none none

def exTFoo : Stmt := .mk "type" "instance-identifier" [] [] "m" none none

/-- `typedef pct { type uint8; }` in module `m`. -/
def exTdPct : Stmt :=
  .mk "typedef" "pct" [.mk "type" "uint8" [] [] "m" none none] [] "m" none none

def exEnvPct : TdEnv := [("pct", exTdPct)]

/-- A `type pct` reference, resolved to `exTdPct`. -/
def exTPct : Stmt := .mk "type" "pct" [] [] "m" none (some "pct")

/-- `typedef A { type A; }` — a self-referential typedef chain. -/
def exCycBase : Stmt := .mk "type" "A" [] [] "m" none (some "idA")

def exTdA : Stmt := .mk "typedef" "A" [exCycBase] [] "m" none none

def exCycEnv : TdEnv := [("idA", exTdA)]

/-- A registry that already holds an (in-progress) empty placeholder. -/
def exSeedDefs : Defs := [("seed", JVal.obj [])]

def exLeafA : Stmt := .mk "leaf" "a" [exTUint64] [] "m" none none

def exLeafX : Stmt := .mk "leaf" "x" [exTString] [] "m" none none

def exCaseC1 : Stmt := .mk "case" "c1" [] [exLeafA] "m" none none

/-- `choice ch { case c1 { leaf a { type uint64; } } }`. -/
def exChoice : Stmt := .mk "choice" "ch" [] [exCaseC1] "m" none none

/-- `container top { choice ch { case c1 { leaf a; } } leaf x; }`. -/
def exTop : Stmt := .mk "container" "top" [] [exChoice, exLeafX] "m" none none

def exModule : Stmt := .mk "module" "m" [] [] "m" none none

def exContainerParent : Stmt := .mk "container" "c" [] [] "m" none none

def exActionDeep : Stmt := .mk "action" "run" [] [] "m" none none

def exLeafAug : Stmt := .mk "leaf" "aug" [exTString] [] "other-mod" none none

def exLeafPlain : Stmt := .mk "leaf" "plain" [exTString] [] "m" none none

/-- `rpc do-it { output { leaf ro { type string; config false; } } }`. -/
def exLeafRO : Stmt := .mk "leaf" "ro" [exTString] [] "m" (some false) none

def exOutput : Stmt := .mk "output" "output" [] [exLeafRO] "m" none none

def exRpc : Stmt := .mk "rpc" "do-it" [exOutput] [] "m" none none

/-- A leaf carrying its own description statement. -/
def exLeafDescribed : Stmt :=
  .mk "leaf" "d" [.mk "description" "a described leaf" [] [] "m" none none,
                  exTString] [] "m" none none

/-! ### Association-list lemmas (Python dict semantics) -/

theorem lookupAssoc_setAssoc_self (l : Defs) (k : String) (v : JVal) :
    lookupAssoc (setAssoc l k v) k = some v := by
  induction l with
  | nil => simp [setAssoc, lookupAssoc]
  | cons p rest ih =>
    by_cases h : p.1 = k
    · simp [setAssoc, lookupAssoc, h]
    · simp [setAssoc, lookupAssoc, h, ih]

theorem lookupAssoc_setAssoc_ne (l : Defs) (k k' : String) (v : JVal)
    (h : k ≠ k') : lookupAssoc (setAssoc l k v) k' = lookupAssoc l k' := by
  induction l with
  | nil => simp [setAssoc, lookupAssoc, h]
  | cons p rest ih =>
    by_cases hp : p.1 = k
    · simp [setAssoc, lookupAssoc, hp, h]
    · simp only [setAssoc, hp, if_false, lookupAssoc]
      by_cases hp' : p.1 = k'
      · simp [hp']
      · simp [hp', ih]

theorem isSome_lookupAssoc_setAssoc (l : Defs) (k k' : String) (v : JVal)
    (h : (lookupAssoc l k').isSome) :
    (lookupAssoc (setAssoc l k v) k').isSome := by
  by_cases hk : k = k'
  · subst hk; simp [lookupAssoc_setAssoc_self]
  · rwa [lookupAssoc_setAssoc_ne l k k' v hk]

theorem lookupAssoc_eq_none_iff (l : Defs) (k : String) :
    lookupAssoc l k = none ↔ k ∉ l.map Prod.fst := by
  induction l with
  | nil => simp [lookupAssoc]
  | cons p rest ih =>
    by_cases h : p.1 = k
    · simp [lookupAssoc, h]
    · simp [lookupAssoc, h, ih, Ne.symm h]

theorem keys_setAssoc (l : Defs) (k : String) (v : JVal) :
    (setAssoc l k v).map Prod.fst =
      if k ∈ l.map Prod.fst then l.map Prod.fst else l.map Prod.fst ++ [k] := by
  induction l with
  | nil => simp [setAssoc]
  | cons p rest ih =>
    by_cases h : p.1 = k
    · simp [setAssoc, h]
    · simp only [setAssoc, h, if_false, List.map_cons, ih]
      by_cases hm : k ∈ rest.map Prod.fst
      · simp [hm, Ne.symm h]
      · simp [hm, Ne.symm h]

theorem nodup_keys_setAssoc (l : Defs) (k : String) (v : JVal)
    (h : (l.map Prod.fst).Nodup) : ((setAssoc l k v).map Prod.fst).Nodup := by
  rw [keys_setAssoc]
  by_cases hm : k ∈ l.map Prod.fst
  · simpa [hm]
  · simp only [hm, if_false]
    exact List.Nodup.append h (List.nodup_singleton k) (by simpa using hm)

theorem setAssoc_ne_nil (l : Defs) (k : String) (v : JVal) :
    setAssoc l k v ≠ [] := by
  cases l with
  | nil => simp [setAssoc]
  | cons p rest =>
    by_cases h : p.1 = k <;> simp [setAssoc, h]

theorem annotate_obj_ne_empty (stmt : Stmt) (v : JVal) (h : v ≠ JVal.obj []) :
    annotate_obj stmt v ≠ JVal.obj [] := by
  unfold annotate_obj
  by_cases hd : (desc_list stmt).isEmpty
  · simpa [hd]
  · simp only [hd, if_false]
    cases v with
    | obj fs =>
      simp only [setObjKey]
      intro hc
      exact setAssoc_ne_nil fs "description" _ (by injection hc)
    | str s => simp [setObjKey]
    | bool b => simp [setObjKey]
    | num n => simp [setObjKey]
    | arr xs => simp [setObjKey]

theorem GoodStepD.refl (defs : Defs) : GoodStepD defs defs :=
  ⟨fun _ h => h, fun h => h, fun _ h => h⟩

theorem GoodStepD.trans {a b c : Defs} (h1 : GoodStepD a b) (h2 : GoodStepD b c) :
    GoodStepD a c :=
  ⟨fun k hk => h2.1 k (h1.1 k hk), fun hn => h2.2.1 (h1.2.1 hn),
   fun k hk => h1.2.2 k (h2.2.2 k hk)⟩

theorem GoodStep.toD {a b : Defs} {f : JVal} (h : GoodStep a b f) : GoodStepD a b :=
  ⟨h.1, h.2.1, h.2.2.1⟩

/-- The placeholder-insert / recurse / overwrite sequence of the typedef
branch (lines 290-294) is one `GoodStepD` step, provided the recursive call
was one and produced a non-empty base schema. -/
theorem goodStepD_typedef (defs defs2 : Defs) (key : String) (td : Stmt)
    (base : JVal)
    (hkey : lookupAssoc defs key = none)
    (hrec : GoodStepD (setAssoc defs key (JVal.obj [])) defs2)
    (hbase : base ≠ JVal.obj []) :
    GoodStepD defs (setAssoc defs2 key (annotate_obj td base)) := by
  refine ⟨?_, ?_, ?_⟩
  · intro k hk
    exact isSome_lookupAssoc_setAssoc _ _ _ _
      (hrec.1 k (isSome_lookupAssoc_setAssoc _ _ _ _ hk))
  · intro hn
    exact nodup_keys_setAssoc _ _ _ (hrec.2.1 (nodup_keys_setAssoc _ _ _ hn))
  · intro k hk
    by_cases hkk : key = k
    · subst hkk
      rw [lookupAssoc_setAssoc_self] at hk
      exact absurd (Option.some.inj hk) (annotate_obj_ne_empty td base hbase)
    · rw [lookupAssoc_setAssoc_ne _ _ _ _ hkk] at hk
      have h2 := hrec.2.2 k hk
      rw [lookupAssoc_setAssoc_ne _ _ _ _ hkk] at h2
      exact h2

theorem produce_type_list_stepD (f : Stmt → Defs → Option (JVal × Defs))
    (hf : ∀ m d v d', f m d = some (v, d') → GoodStepD d d') :
    ∀ ms defs frags defs',
      produce_type_list f ms defs = some (frags, defs') → GoodStepD defs defs' := by
  intro ms
  induction ms with
  | nil =>
    intro defs frags defs' h
    rw [produce_type_list] at h
    obtain ⟨-, h2⟩ := Prod.mk.injEq .. ▸ Option.some.inj h
    exact h2 ▸ GoodStepD.refl defs
  | cons m rest ihm =>
    intro defs frags defs' h
    rw [produce_type_list] at h
    split at h
    · exact absurd h (by simp)
    · rename_i v d1 h1
      split at h
      · exact absurd h (by simp)
      · rename_i vs d2 h2
        obtain ⟨-, he⟩ := Prod.mk.injEq .. ▸ Option.some.inj h
        exact he ▸ ((hf m defs v d1 h1).trans (ihm _ _ _ h2))

theorem produce_type_goodStep (env : TdEnv) (opts : Opts) : ∀ fuel : Nat,
    ∀ ot defs frag defs',
      produce_type env opts fuel ot defs = some (frag, defs') →
      GoodStep defs defs' frag := by
  intro fuel
  induction fuel with
  | zero =>
    intro ot defs frag defs' h
    cases ot with
    | none =>
      simp only [produce_type] at h
      obtain ⟨h1, h2⟩ := Prod.mk.injEq .. ▸ Option.some.inj h
      subst h2
      exact ⟨fun _ hk => hk, fun hn => hn, fun _ hk => hk,
             h1 ▸ (by simp [strFrag])⟩
    | some t => simp [produce_type] at h
  | succ n ih =>
    intro ot defs frag defs' h
    cases ot with
    | none =>
      simp only [produce_type] at h
      obtain ⟨h1, h2⟩ := Prod.mk.injEq .. ▸ Option.some.inj h
      subst h2
      exact ⟨fun _ hk => hk, fun hn => hn, fun _ hk => hk,
             h1 ▸ (by simp [strFrag])⟩
    | some t =>
      rw [produce_type] at h
      cases hr : resolveTypedef env t with
      | some typedef =>
        rw [hr] at h
        simp only [] at h
        by_cases hk : (lookupAssoc defs (defKey opts typedef)).isSome
        · rw [if_pos hk] at h
          obtain ⟨h1, h2⟩ := Prod.mk.injEq .. ▸ Option.some.inj h
          subst h2
          exact ⟨fun _ hk => hk, fun hn => hn, fun _ hk => hk,
                 h1 ▸ (by simp [refFrag])⟩
        · rw [if_neg hk] at h
          cases hb : produce_type env opts n (typedef.search_one "type")
              (setAssoc defs (defKey opts typedef) (JVal.obj [])) with
          | none => rw [hb] at h; exact absurd h (by simp)
          | some r =>
            obtain ⟨base_schema, defs2⟩ := r
            rw [hb] at h
            obtain ⟨h1, h2⟩ := Prod.mk.injEq .. ▸ Option.some.inj h
            have hg := ih _ _ _ _ hb
            have hD := goodStepD_typedef defs defs2 (defKey opts typedef)
              typedef base_schema
              (Option.not_isSome_iff_eq_none.mp hk) hg.toD hg.2.2.2
            subst h2
            exact ⟨hD.1, hD.2.1, hD.2.2, h1 ▸ (by simp [refFrag])⟩
      | none =>
        rw [hr] at h
        simp only [] at h
        split_ifs at h with c1 c2 c3 c4 c5 c6 c7 c8
        · obtain ⟨h1, h2⟩ := Prod.mk.injEq .. ▸ Option.some.inj h
          subst h2
          exact ⟨fun _ hk => hk, fun hn => hn, fun _ hk => hk,
                 h1 ▸ (by simp [intFrag])⟩
        · obtain ⟨h1, h2⟩ := Prod.mk.injEq .. ▸ Option.some.inj h
          subst h2
          exact ⟨fun _ hk => hk, fun hn => hn, fun _ hk => hk,
                 h1 ▸ (by simp [int64Frag])⟩
        · obtain ⟨h1, h2⟩ := Prod.mk.injEq .. ▸ Option.some.inj h
          subst h2
          exact ⟨fun _ hk => hk, fun hn => hn, fun _ hk => hk, h1 ▸ (by simp)⟩
        · cases hp : t.search_one "pattern" with
          | some p =>
            rw [hp] at h
            obtain ⟨h1, h2⟩ := Prod.mk.injEq .. ▸ Option.some.inj h
            subst h2
            exact ⟨fun _ hk => hk, fun hn => hn, fun _ hk => hk, h1 ▸ (by simp)⟩
          | none =>
            rw [hp] at h
            obtain ⟨h1, h2⟩ := Prod.mk.injEq .. ▸ Option.some.inj h
            subst h2
            exact ⟨fun _ hk => hk, fun hn => hn, fun _ hk => hk,
                   h1 ▸ (by simp [strFrag])⟩
        · obtain ⟨h1, h2⟩ := Prod.mk.injEq .. ▸ Option.some.inj h
          subst h2
          exact ⟨fun _ hk => hk, fun hn => hn, fun _ hk => hk, h1 ▸ (by simp)⟩
        · obtain ⟨h1, h2⟩ := Prod.mk.injEq .. ▸ Option.some.inj h
          subst h2
          exact ⟨fun _ hk => hk, fun hn => hn, fun _ hk => hk, h1 ▸ (by simp)⟩
        · obtain ⟨h1, h2⟩ := Prod.mk.injEq .. ▸ Option.some.inj h
          subst h2
          exact ⟨fun _ hk => hk, fun hn => hn, fun _ hk => hk,
                 h1 ▸ (by simp [emptyFrag])⟩
        · cases hb : produce_type_list
              (fun m d => produce_type env opts n (some m) d)
              (t.search "type") defs with
          | none => rw [hb] at h; exact absurd h (by simp)
          | some r =>
            obtain ⟨frags, defs2⟩ := r
            rw [hb] at h
            obtain ⟨h1, h2⟩ := Prod.mk.injEq .. ▸ Option.some.inj h
            have hD := produce_type_list_stepD
              (fun m d => produce_type env opts n (some m) d)
              (fun m d v d' h1 => (ih (some m) d v d' h1).toD) _ _ _ _ hb
            subst h2
            exact ⟨hD.1, hD.2.1, hD.2.2, h1 ▸ (by simp)⟩
        · obtain ⟨h1, h2⟩ := Prod.mk.injEq .. ▸ Option.some.inj h
          subst h2
          exact ⟨fun _ hk => hk, fun hn => hn, fun _ hk => hk,
                 h1 ▸ (by simp [strFrag])⟩

theorem produce_type_stepD (env : TdEnv) (opts : Opts) (fuel : Nat)
    (ot : Option Stmt) (defs : Defs) (frag : JVal) (defs' : Defs)
    (h : produce_type env opts fuel ot defs = some (frag, defs')) :
    GoodStepD defs defs' :=
  (produce_type_goodStep env opts fuel _ _ _ _ h).toD

theorem produce_leaf_stepD (env : TdEnv) (opts : Opts) (fuel : Nat) (c : Stmt)
    (config_filter : Bool) (defs : Defs) (os : Option JVal) (defs' : Defs)
    (h : produce_leaf env opts fuel c config_filter defs = some (os, defs')) :
    GoodStepD defs defs' := by
  rw [produce_leaf] at h
  split at h
  · exact absurd h (by simp)
  · rename_i schema d1 h1
    obtain ⟨-, h2⟩ := Prod.mk.injEq .. ▸ Option.some.inj h
    exact h2 ▸ produce_type_stepD env opts fuel _ defs schema d1 h1

theorem produce_leaf_list_stepD (env : TdEnv) (opts : Opts) (fuel : Nat) (c : Stmt)
    (config_filter : Bool) (defs : Defs) (os : Option JVal) (defs' : Defs)
    (h : produce_leaf_list env opts fuel c config_filter defs = some (os, defs')) :
    GoodStepD defs defs' := by
  rw [produce_leaf_list] at h
  split at h
  · exact absurd h (by simp)
  · rename_i items d1 h1
    obtain ⟨-, h2⟩ := Prod.mk.injEq .. ▸ Option.some.inj h
    exact h2 ▸ produce_type_stepD env opts fuel _ defs items d1 h1

theorem produce_children_list_stepD
    (f : Stmt → Bool → Defs → Option (Option JVal × Defs))
    (hf : ∀ c cf d os d', f c cf d = some (os, d') → GoodStepD d d')
    (parent : Stmt) :
    ∀ (cs : List Stmt) (config_filter : Bool) (props : Props) (defs : Defs)
      (props' : Props) (defs' : Defs),
      produce_children_list f parent cs config_filter props defs =
        some (props', defs') →
      GoodStepD defs defs' := by
  intro cs
  induction cs with
  | nil =>
    intro cf props defs props' defs' h
    rw [produce_children_list] at h
    obtain ⟨-, h2⟩ := Prod.mk.injEq .. ▸ Option.some.inj h
    exact h2 ▸ GoodStepD.refl defs
  | cons c rest ih =>
    intro cf props defs props' defs' h
    rw [produce_children_list] at h
    by_cases hskip : cf ∧ c.i_config = some false
    · rw [if_pos hskip] at h
      exact ih cf props defs props' defs' h
    · rw [if_neg hskip] at h
      by_cases hprod : producerKeywords.contains c.keyword
      · rw [if_pos hprod] at h
        split at h
        · exact absurd h (by simp)
        · rename_i oschema d1 h1
          have hd1 := hf c cf defs oschema d1 h1
          cases oschema with
          | some schema => exact hd1.trans (ih cf _ d1 props' defs' h)
          | none => exact hd1.trans (ih cf props d1 props' defs' h)
      · rw [if_neg hprod] at h
        exact ih cf props defs props' defs' h

theorem produce_container_stepD
    (f : Stmt → Bool → Defs → Option (Option JVal × Defs))
    (hf : ∀ c cf d os d', f c cf d = some (os, d') → GoodStepD d d')
    (c : Stmt) (config_filter : Bool) (defs : Defs) (os : Option JVal)
    (defs' : Defs)
    (h : produce_container f c config_filter defs = some (os, defs')) :
    GoodStepD defs defs' := by
  rw [produce_container] at h
  split at h
  · exact absurd h (by simp)
  · rename_i props d1 h1
    obtain ⟨-, h2⟩ := Prod.mk.injEq .. ▸ Option.some.inj h
    exact h2 ▸ produce_children_list_stepD f hf c c.i_children config_filter []
      defs props d1 h1

theorem produce_list_stepD
    (f : Stmt → Bool → Defs → Option (Option JVal × Defs))
    (hf : ∀ c cf d os d', f c cf d = some (os, d') → GoodStepD d d')
    (c : Stmt) (config_filter : Bool) (defs : Defs) (os : Option JVal)
    (defs' : Defs)
    (h : produce_list f c config_filter defs = some (os, defs')) :
    GoodStepD defs defs' := by
  rw [produce_list] at h
  split at h
  · exact absurd h (by simp)
  · rename_i props d1 h1
    obtain ⟨-, h2⟩ := Prod.mk.injEq .. ▸ Option.some.inj h
    exact h2 ▸ produce_children_list_stepD f hf c c.i_children config_filter []
      defs props d1 h1

theorem produce_node_stepD (env : TdEnv) (opts : Opts) : ∀ (fuel : Nat)
    (c : Stmt) (config_filter : Bool) (defs : Defs) (os : Option JVal)
    (defs' : Defs),
    produce_node env opts fuel c config_filter defs = some (os, defs') →
    GoodStepD defs defs' := by
  intro fuel
  induction fuel with
  | zero => intro c cf defs os defs' h; simp [produce_node] at h
  | succ n ih =>
    intro c cf defs os defs' h
    rw [produce_node] at h
    split_ifs at h with h1 h2 h3 h4 h5 h6
    · exact produce_container_stepD (produce_node env opts n)
        (fun c cf d os d' hc => ih c cf d os d' hc) c cf defs os defs' h
    · exact produce_list_stepD (produce_node env opts n)
        (fun c cf d os d' hc => ih c cf d os d' hc) c cf defs os defs' h
    · exact produce_leaf_list_stepD env opts n c cf defs os defs' h
    · exact produce_leaf_stepD env opts n c cf defs os defs' h
    · obtain ⟨-, hd⟩ := Prod.mk.injEq .. ▸ Option.some.inj h
      exact hd ▸ GoodStepD.refl defs
    · obtain ⟨-, hd⟩ := Prod.mk.injEq .. ▸ Option.some.inj h
      exact hd ▸ GoodStepD.refl defs
    · obtain ⟨-, hd⟩ := Prod.mk.injEq .. ▸ Option.some.inj h
      exact hd ▸ GoodStepD.refl defs

/-! ### Claim C8 -/

/-- C8: throughout one compilation run the Definition Registry is
append-only — a key present in `self.definitions` before a `produce_type`
call (or before a whole `produce_children` subtree walk) is still present
after it — and a second `produce_type` call for an already-present key is a
no-op on the registry: it returns only the reference fragment and leaves
`defs` exactly unchanged (lines 289-296). -/
theorem C8_registry_append_only (env : TdEnv) (opts : Opts) (fuel : Nat) :
    (∀ ot defs frag defs',
        produce_type env opts fuel ot defs = some (frag, defs') →
        ∀ k, (lookupAssoc defs k).isSome → (lookupAssoc defs' k).isSome) ∧
    (∀ stmt config_filter defs props defs',
        produce_children env opts fuel stmt config_filter defs =
          some (props, defs') →
        ∀ k, (lookupAssoc defs k).isSome → (lookupAssoc defs' k).isSome) ∧
    (∀ t typedef defs,
        resolveTypedef env t = some typedef →
        (lookupAssoc defs (defKey opts typedef)).isSome →
        produce_type env opts (fuel + 1) (some t) defs =
          some (refFrag (defKey opts typedef), defs)) := by
  refine ⟨?_, ?_, ?_⟩
  · intro ot defs frag defs' h k hk
    exact (produce_type_stepD env opts fuel ot defs frag defs' h).1 k hk
  · intro stmt config_filter defs props defs' h k hk
    exact (produce_children_list_stepD (produce_node env opts fuel)
      (fun c cf d os d' hc => produce_node_stepD env opts fuel c cf d os d' hc)
      stmt stmt.i_children config_filter [] defs props defs' h).1 k hk
  · intro t typedef defs hr hk
    rw [produce_type, hr]
    simp only [hk, if_true]

/-- Witness for C8 at a concrete input: with `typedef pct` already compiled
into the registry, a second call returns only the `$ref` and leaves the
registry untouched. -/
theorem C8_registry_append_only_witness :
    produce_type exEnvPct exOpts 3 (some exTPct) [] =
      some (refFrag "m_pct", [("m_pct", intFrag)]) ∧
    resolveTypedef exEnvPct exTPct = some exTdPct ∧
    (lookupAssoc [("m_pct", intFrag)] (defKey exOpts exTdPct)).isSome = true ∧
    produce_type exEnvPct exOpts 3 (some exTPct) [("m_pct", intFrag)] =
      some (refFrag (defKey exOpts exTdPct), [("m_pct", intFrag)]) ∧
    (lookupAssoc [("m_pct", intFrag)] "m_pct").isSome = true :=
  ⟨rfl, rfl, rfl,
   (C8_registry_append_only exEnvPct exOpts 2).2.2 exTPct exTdPct
     [("m_pct", intFrag)] rfl rfl,
   (C8_registry_append_only exEnvPct exOpts 3).1 (some exTPct)
     [("m_pct", intFrag)] (refFrag "m_pct") [("m_pct", intFrag)] rfl "m_pct"
     (by simp [lookupAssoc])⟩

/-! ### Claim C2 -/

/-- C2: for a `type` statement that resolves to a typedef, `produce_type`
always returns the reference fragment keyed by that typedef's DefinitionKey
— whether or not this call inserted the definition; after the call the key
is present in `$defs`; key distinctness (one entry per key) is preserved;
and when the key was already present the registry is untouched, so N leaves
sharing the typedef yield one definition and N identical references. -/
theorem C2_typedef_dedup (env : TdEnv) (opts : Opts) (fuel : Nat)
    (t typedef : Stmt) (defs : Defs) (frag : JVal) (defs' : Defs)
    (hr : resolveTypedef env t = some typedef)
    (h : produce_type env opts (fuel + 1) (some t) defs = some (frag, defs')) :
    frag = refFrag (defKey opts typedef) ∧
    (lookupAssoc defs' (defKey opts typedef)).isSome ∧
    ((defs.map Prod.fst).Nodup → (defs'.map Prod.fst).Nodup) ∧
    ((lookupAssoc defs (defKey opts typedef)).isSome → defs' = defs) := by
  rw [produce_type, hr] at h
  simp only [] at h
  by_cases hk : (lookupAssoc defs (defKey opts typedef)).isSome
  · rw [if_pos hk] at h
    obtain ⟨h1, h2⟩ := Prod.mk.injEq .. ▸ Option.some.inj h
    subst h2
    exact ⟨h1.symm, hk, fun hn => hn, fun _ => rfl⟩
  · rw [if_neg hk] at h
    split at h
    · exact absurd h (by simp)
    · rename_i base_schema defs2 hb
      obtain ⟨h1, h2⟩ := Prod.mk.injEq .. ▸ Option.some.inj h
      subst h2
      have hg := produce_type_goodStep env opts fuel _ _ _ _ hb
      refine ⟨h1.symm, ?_, ?_, fun hc => absurd hc hk⟩
      · rw [lookupAssoc_setAssoc_self]; rfl
      · intro hn
        exact nodup_keys_setAssoc _ _ _ (hg.2.1 (nodup_keys_setAssoc _ _ _ hn))

/-- Witness for C2: two leaves of type `pct`; the first call compiles the
definition, the second only references it — same key, one entry. -/
theorem C2_typedef_dedup_witness :
    resolveTypedef exEnvPct exTPct = some exTdPct ∧
    produce_type exEnvPct exOpts 3 (some exTPct) [] =
      some (refFrag "m_pct", [("m_pct", intFrag)]) ∧
    produce_type exEnvPct exOpts 3 (some exTPct) [("m_pct", intFrag)] =
      some (refFrag "m_pct", [("m_pct", intFrag)]) ∧
    (refFrag "m_pct" = refFrag (defKey exOpts exTdPct) ∧
     (lookupAssoc [("m_pct", intFrag)] (defKey exOpts exTdPct)).isSome ∧
     ((([] : Defs).map Prod.fst).Nodup →
       (([("m_pct", intFrag)] : Defs).map Prod.fst).Nodup) ∧
     ((lookupAssoc [] (defKey exOpts exTdPct)).isSome →
       ([("m_pct", intFrag)] : Defs) = [])) ∧
    (refFrag "m_pct" = refFrag (defKey exOpts exTdPct) ∧
     (lookupAssoc [("m_pct", intFrag)] (defKey exOpts exTdPct)).isSome ∧
     ((([("m_pct", intFrag)] : Defs).map Prod.fst).Nodup →
       (([("m_pct", intFrag)] : Defs).map Prod.fst).Nodup) ∧
     ((lookupAssoc [("m_pct", intFrag)] (defKey exOpts exTdPct)).isSome →
       ([("m_pct", intFrag)] : Defs) = [("m_pct", intFrag)])) :=
  ⟨rfl, rfl, rfl,
   C2_typedef_dedup exEnvPct exOpts 2 exTPct exTdPct [] (refFrag "m_pct")
     [("m_pct", intFrag)] rfl rfl,
   C2_typedef_dedup exEnvPct exOpts 2 exTPct exTdPct [("m_pct", intFrag)]
     (refFrag "m_pct") [("m_pct", intFrag)] rfl rfl⟩

/-! ### Claim C4 -/

/-- Counterexample to C4 as stated: for the genuinely cyclic chain
`typedef A { type A; }` the run finishes with the `$defs` entry for the
cycle member equal to a `$ref` back into the cycle — the placeholder was
overwritten at line 294 — not the empty placeholder `\x7b\x7d`. -/
theorem C4_counterexample :
    produce_type exCycEnv exOpts 6 (some exCycBase) [] =
      some (refFrag "m_A", [("m_A", refFrag "m_A")]) ∧
    lookupAssoc [("m_A", refFrag "m_A")] "m_A" ≠ some (JVal.obj []) :=
  ⟨rfl, by simp [lookupAssoc, refFrag]⟩

/-- C4 (amended): after a completed `produce_type` call, any empty-object
entry of the registry was already there before the call — every placeholder
inserted during the call is overwritten before the call that inserted it
returns, so starting from an empty registry no `$defs` entry (in particular
no cycle member's) remains `\x7b\x7d`. -/
theorem C4_no_lingering_placeholder (env : TdEnv) (opts : Opts) (fuel : Nat)
    (ot : Option Stmt) (defs : Defs) (frag : JVal) (defs' : Defs) (k : String)
    (h : produce_type env opts fuel ot defs = some (frag, defs'))
    (hk : lookupAssoc defs' k = some (JVal.obj [])) :
    lookupAssoc defs k = some (JVal.obj []) :=
  (produce_type_goodStep env opts fuel ot defs frag defs' h).2.2.1 k hk

/-- Witness for the amended C4: running the cyclic chain over a registry
holding one pre-existing placeholder, the only empty entry afterwards is
that pre-existing one. -/
theorem C4_no_lingering_placeholder_witness :
    produce_type exCycEnv exOpts 6 (some exCycBase) exSeedDefs =
      some (refFrag "m_A", [("seed", JVal.obj []), ("m_A", refFrag "m_A")]) ∧
    lookupAssoc [("seed", JVal.obj []), ("m_A", refFrag "m_A")] "seed" =
      some (JVal.obj []) ∧
    lookupAssoc exSeedDefs "seed" = some (JVal.obj []) :=
  ⟨rfl, rfl,
   C4_no_lingering_placeholder exCycEnv exOpts 6 (some exCycBase) exSeedDefs
     (refFrag "m_A") [("seed", JVal.obj []), ("m_A", refFrag "m_A")] "seed"
     rfl rfl⟩

/-! ### Claim C3: the fuel bound is sufficient -/

theorem twSize_pos (t : Stmt) : 1 ≤ twSize t := by
  cases t; simp [twSize]

theorem twListSize_filter_le (p : Stmt → Bool) (ss : List Stmt) :
    twListSize (ss.filter p) ≤ twListSize ss := by
  induction ss with
  | nil => simp [List.filter]
  | cons c cs ih =>
    by_cases h : p c
    · simp only [List.filter, h, twListSize]
      omega
    · simp only [List.filter, h]
      simp only [twListSize]
      omega

theorem twListSize_search_lt (t : Stmt) (kw : String) :
    twListSize (t.search kw) < twSize t := by
  cases t with
  | mk k a ss ics m cfg td =>
    have hf := twListSize_filter_le (fun c => c.keyword = kw) ss
    simp only [Stmt.search, Stmt.substmts, twSize]
    omega

theorem mem_of_lookup_eq_some {id : String} {td : Stmt} :
    ∀ {env : TdEnv}, List.lookup id env = some td → (id, td) ∈ env := by
  intro env
  induction env with
  | nil => intro h; simp [List.lookup] at h
  | cons p rest ih =>
    intro h
    obtain ⟨k, v⟩ := p
    rw [List.lookup] at h
    by_cases he : id = k
    · subst he
      simp at h
      simp [h]
    · have : (id == k) = false := by simpa using he
      rw [this] at h
      simp only [List.mem_cons]
      exact Or.inr (ih h)

theorem twOpt_le_envMaxBase {env : TdEnv} {id : String} {td : Stmt}
    (h : (id, td) ∈ env) :
    twOpt (td.search_one "type") ≤ envMaxBase env := by
  induction env with
  | nil => simp at h
  | cons p rest ih =>
    rcases List.mem_cons.mp h with h1 | h1
    · have : p.2 = td := by rw [← h1]
      simp only [envMaxBase, List.foldr, this]
      exact le_max_left _ _
    · calc twOpt (td.search_one "type") ≤ envMaxBase rest := ih h1
        _ ≤ envMaxBase (p :: rest) := by
            simp only [envMaxBase, List.foldr]
            exact le_max_right _ _

theorem missingCount_le_of_mono (opts : Opts) (env : TdEnv) {defs defs' : Defs}
    (hmono : ∀ k, (lookupAssoc defs k).isSome → (lookupAssoc defs' k).isSome) :
    missingCount opts env defs' ≤ missingCount opts env defs := by
  apply Finset.card_le_card
  intro k hk
  simp only [missingCount, Finset.mem_filter] at hk ⊢
  exact ⟨hk.1, fun hs => hk.2 (by simpa using hmono k (by simpa using hs))⟩

theorem missingCount_lt_of_insert (opts : Opts) (env : TdEnv) {defs : Defs}
    {id : String} {td : Stmt} (hmem : (id, td) ∈ env)
    (habs : ¬ (lookupAssoc defs (defKey opts td)).isSome) (v : JVal) :
    missingCount opts env (setAssoc defs (defKey opts td) v) <
      missingCount opts env defs := by
  apply Finset.card_lt_card
  rw [Finset.ssubset_iff_of_subset]
  · refine ⟨defKey opts td, ?_, ?_⟩
    · simp only [missingCount, Finset.mem_filter, List.mem_toFinset]
      exact ⟨List.mem_map.mpr ⟨(id, td), hmem, rfl⟩, by simpa using habs⟩
    · simp only [missingCount, Finset.mem_filter]
      intro hc
      exact (by simpa using hc.2 :
        ¬ (lookupAssoc (setAssoc defs (defKey opts td) v) (defKey opts td)).isSome)
        (by rw [lookupAssoc_setAssoc_self]; rfl)
  · intro k hk
    simp only [missingCount, Finset.mem_filter] at hk ⊢
    refine ⟨hk.1, ?_⟩
    have h2 := hk.2
    simp only [decide_eq_true_eq] at h2 ⊢
    exact fun hs => h2 (isSome_lookupAssoc_setAssoc _ _ _ _ hs)

theorem produce_type_fuel_sufficient (env : TdEnv) (opts : Opts) : ∀ fuel : Nat,
    ∀ ot defs, ptBound env opts defs ot ≤ fuel →
      (produce_type env opts fuel ot defs).isSome := by
  intro fuel
  induction fuel with
  | zero =>
    intro ot defs h
    cases ot with
    | none => simp [produce_type]
    | some t =>
      exfalso
      have h1 := twSize_pos t
      simp only [ptBound, twOpt] at h
      omega
  | succ n ih =>
    have hlist : ∀ ms defs0,
        missingCount opts env defs0 * envC env + twListSize ms ≤ n →
        (produce_type_list (fun m d => produce_type env opts n (some m) d)
          ms defs0).isSome := by
      intro ms
      induction ms with
      | nil => intro defs0 h0; simp [produce_type_list]
      | cons m rest ihm =>
        intro defs0 h0
        rw [produce_type_list]
        have hm : ptBound env opts defs0 (some m) ≤ n := by
          simp only [ptBound, twOpt]
          simp only [twListSize] at h0
          omega
        have h1 := ih (some m) defs0 hm
        split
        · rename_i hres
          rw [hres] at h1
          simp at h1
        · rename_i v d1 hres
          have hmono := produce_type_stepD env opts n (some m) defs0 v d1 hres
          have hle := missingCount_le_of_mono opts env hmono.1
          have h2 : missingCount opts env d1 * envC env + twListSize rest ≤ n := by
            have hmul : missingCount opts env d1 * envC env ≤
                missingCount opts env defs0 * envC env :=
              Nat.mul_le_mul_right _ hle
            have hpos := twSize_pos m
            simp only [twListSize] at h0
            omega
          have h3 := ihm d1 h2
          split
          · rename_i hres2
            rw [hres2] at h3
            simp at h3
          · simp
    intro ot defs h
    cases ot with
    | none => simp [produce_type]
    | some t =>
      rw [produce_type]
      cases hr : resolveTypedef env t with
      | some typedef =>
        simp only []
        by_cases hk : (lookupAssoc defs (defKey opts typedef)).isSome
        · simp [hk]
        · rw [if_neg hk]
          obtain ⟨id, hid, hlook⟩ :
              ∃ id, t.i_typedef = some id ∧ List.lookup id env = some typedef := by
            rcases ht : t.i_typedef with _ | id
            · rw [resolveTypedef, ht] at hr; simp at hr
            · rw [resolveTypedef, ht] at hr; exact ⟨id, rfl, hr⟩
          have hmem := mem_of_lookup_eq_some hlook
          have hbase := twOpt_le_envMaxBase hmem
          have hlt := missingCount_lt_of_insert opts env hmem hk (JVal.obj [])
          have hb2 : ptBound env opts
              (setAssoc defs (defKey opts typedef) (JVal.obj []))
              (typedef.search_one "type") ≤ n := by
            simp only [ptBound] at h ⊢
            have htw : twOpt (some t) = twSize t := rfl
            rw [htw] at h
            have h1 := twSize_pos t
            have key1 : missingCount opts env
                  (setAssoc defs (defKey opts typedef) (JVal.obj [])) * envC env
                  + envC env ≤ missingCount opts env defs * envC env := by
              have hs : missingCount opts env
                  (setAssoc defs (defKey opts typedef) (JVal.obj [])) + 1 ≤
                  missingCount opts env defs := hlt
              calc missingCount opts env
                    (setAssoc defs (defKey opts typedef) (JVal.obj [])) * envC env
                    + envC env
                  = (missingCount opts env
                      (setAssoc defs (defKey opts typedef) (JVal.obj [])) + 1)
                      * envC env := by ring
                _ ≤ missingCount opts env defs * envC env :=
                    Nat.mul_le_mul_right _ hs
            have key2 : twOpt (typedef.search_one "type") + 1 ≤ envC env := by
              simp only [envC]
              omega
            omega
          have hrec := ih (typedef.search_one "type")
            (setAssoc defs (defKey opts typedef) (JVal.obj [])) hb2
          split
          · rename_i hres
            rw [hres] at hrec
            simp at hrec
          · simp
      | none =>
        simp only []
        have hsearch := twListSize_search_lt t "type"
        split_ifs with c1 c2 c3 c4 c5 c6 c7 c8
        · simp
        · simp
        · simp
        · cases hp : t.search_one "pattern" <;> simp
        · simp
        · simp
        · simp
        · have hb : missingCount opts env defs * envC env +
              twListSize (t.search "type") ≤ n := by
            simp only [ptBound, twOpt] at h
            omega
          have h3 := hlist (t.search "type") defs hb
          split
          · rename_i hres
            rw [hres] at h3
            simp at h3
          · simp
        · simp

/-- C3: the Type Mapper terminates on every input, including
self-referential or mutually-recursive typedef chains: with the computable
fuel amount `ptBound` — which only counts the environment's still-missing
`$defs` keys and the type statement's own size — `produce_type` always
completes, because the placeholder inserted before recursing makes any
re-encountered in-progress key return a `$ref` instead of recursing
further. -/
theorem C3_type_mapper_terminates (env : TdEnv) (opts : Opts) (t : Stmt)
    (defs : Defs) :
    (produce_type env opts (ptBound env opts defs (some t)) (some t) defs).isSome :=
  produce_type_fuel_sufficient env opts _ (some t) defs (le_refl _)

/-! ### Claim C1 -/

/-- C1, evaluated at the failing input: in
`container top { choice ch { case c1 { leaf a { type uint64; } } } leaf x; }`
the compiled properties hold only `x`.  The `choice` producer returns the
absent sentinel (line 343) and `produce_children` never descends into the
choice's cases, so no `ch` key appears (the claim's first half) but the case
member leaf `a` is dropped entirely instead of appearing as a direct sibling
(refuting the claim's second half and the source's own comment
"Choices are flattened in JSON"). -/
theorem C1_choice_subtree_dropped :
    produce_children [] exOpts 5 exTop false [] = some ([("x", strFrag)], []) ∧
    lookupAssoc [("x", strFrag)] "ch" = none ∧
    lookupAssoc [("x", strFrag)] "a" = none :=
  ⟨rfl, rfl, rfl⟩

/-! ### Claim C5 -/

/-- C5: the fixed primitive table of the Type Mapper — `int64`/`uint64` map
to the decimal-string fragment, `empty` to the null-marker array fragment, a
missing type descriptor and any unrecognized type name to the permissive
`\x7btype: string\x7d`, and a union of `string` and `int32` to
`anyOf` of the member fragments in declaration order. -/
theorem C5_primitive_table (env : TdEnv) (opts : Opts) (fuel : Nat) (t : Stmt)
    (defs : Defs) (hr : resolveTypedef env t = none) :
    (produce_type env opts fuel none defs = some (strFrag, defs)) ∧
    ((t.arg = "int64" ∨ t.arg = "uint64") →
      produce_type env opts (fuel + 1) (some t) defs = some (int64Frag, defs)) ∧
    (t.arg = "empty" →
      produce_type env opts (fuel + 1) (some t) defs = some (emptyFrag, defs)) ∧
    (t.arg ∉ knownTypeNames →
      produce_type env opts (fuel + 1) (some t) defs = some (strFrag, defs)) ∧
    (∀ m1 m2, t.arg = "union" → t.search "type" = [m1, m2] →
      resolveTypedef env m1 = none → m1.arg = "string" →
      m1.search_one "pattern" = none →
      resolveTypedef env m2 = none → m2.arg = "int32" →
      produce_type env opts (fuel + 2) (some t) defs =
        some (.obj [("anyOf", .arr [strFrag, intFrag])], defs)) := by
  refine ⟨by simp [produce_type], ?_, ?_, ?_, ?_⟩
  · intro harg
    rcases harg with h | h <;> simp [produce_type, hr, h]
  · intro harg
    simp [produce_type, hr, harg]
  · intro hnot
    rw [produce_type, hr]
    simp only []
    split_ifs with c1 c2 c3 c4 c5 c6 c7 c8
    · exact absurd (by rcases c1 with h | h | h | h | h | h <;>
        simp [knownTypeNames, h]) hnot
    · exact absurd (by rcases c2 with h | h <;> simp [knownTypeNames, h]) hnot
    · exact absurd (by simp [knownTypeNames, c3]) hnot
    · exact absurd (by simp [knownTypeNames, c4]) hnot
    · exact absurd (by simp [knownTypeNames, c5]) hnot
    · exact absurd (by simp [knownTypeNames, c6]) hnot
    · exact absurd (by simp [knownTypeNames, c7]) hnot
    · exact absurd (by simp [knownTypeNames, c8]) hnot
    · rfl
  · intro m1 m2 harg hsearch hr1 hm1 hp1 hr2 hm2
    simp [produce_type, produce_type_list, hr, harg, hsearch, hr1, hm1, hp1,
      hr2, hm2]

/-- Witness for C5 at concrete inputs: a `uint64` leaf type, an `empty`
type, an unrecognized `instance-identifier` type, and a
`union { type string; type int32; }`. -/
theorem C5_primitive_table_witness :
    resolveTypedef [] exTUint64 = none ∧
    produce_type [] exOpts 5 (some exTUint64) [] = some (int64Frag, []) ∧
    resolveTypedef [] exTEmpty = none ∧
    produce_type [] exOpts 5 (some exTEmpty) [] = some (emptyFrag, []) ∧
    exTFoo.arg ∉ knownTypeNames ∧
    produce_type [] exOpts 5 (some exTFoo) [] = some (strFrag, []) ∧
    produce_type [] exOpts 5 (some exTUnion) [] =
      some (.obj [("anyOf", .arr [strFrag, intFrag])], []) ∧
    produce_type [] exOpts 5 none [] = some (strFrag, []) :=
  ⟨rfl,
   (C5_primitive_table [] exOpts 4 exTUint64 [] rfl).2.1 (Or.inr rfl),
   rfl,
   (C5_primitive_table [] exOpts 4 exTEmpty [] rfl).2.2.1 rfl,
   by simp [exTFoo, Stmt.arg, knownTypeNames],
   (C5_primitive_table [] exOpts 4 exTFoo [] rfl).2.2.2.1
     (by simp [exTFoo, Stmt.arg, knownTypeNames]),
   (C5_primitive_table [] exOpts 3 exTUnion [] rfl).2.2.2.2 exTString exTInt32
     rfl rfl rfl rfl rfl rfl rfl,
   (C5_primitive_table [] exOpts 5 exTUint64 [] rfl).1⟩

/-! ### Claim C6 -/

/-- C6: the Qualifier's rules in priority order — `rpc`/`action` nodes are
always module-qualified regardless of nesting; direct children of a
`module`/`submodule` root are qualified; nodes whose owning module differs
from their parent's are qualified; everything else gets the bare local
name. -/
theorem C6_qualifier_rules (parent stmt : Stmt) :
    ((stmt.keyword = "rpc" ∨ stmt.keyword = "action") →
      qualify_name parent stmt = stmt.i_module ++ ":" ++ stmt.arg) ∧
    ((parent.keyword = "module" ∨ parent.keyword = "submodule") →
      qualify_name parent stmt = stmt.i_module ++ ":" ++ stmt.arg) ∧
    (stmt.i_module ≠ parent.i_module →
      qualify_name parent stmt = stmt.i_module ++ ":" ++ stmt.arg) ∧
    (stmt.keyword ≠ "rpc" → stmt.keyword ≠ "action" →
      parent.keyword ≠ "module" → parent.keyword ≠ "submodule" →
      stmt.i_module = parent.i_module →
      qualify_name parent stmt = stmt.arg) := by
  refine ⟨?_, ?_, ?_, ?_⟩
  · intro h
    simp [qualify_name, h]
  · intro hp
    simp only [qualify_name]
    split_ifs with h1 h2
    · rfl
    · rfl
    · exact absurd (Or.inl hp) h2
  · intro hm
    simp only [qualify_name]
    split_ifs with h1 h2
    · rfl
    · rfl
    · exact absurd (Or.inr hm) h2
  · intro h1 h2 h3 h4 h5
    simp only [qualify_name]
    split_ifs with ha hb
    · exact absurd ha (by simp [h1, h2])
    · exact absurd hb (by simp [h3, h4, h5])
    · rfl

/-- Witness for C6: a deeply nested `action` is qualified, a top-level leaf
is qualified, an augmented leaf from another module is qualified, and an
ordinary child with its parent's module gets the bare name. -/
theorem C6_qualifier_rules_witness :
    qualify_name exContainerParent exActionDeep = "m:run" ∧
    qualify_name exModule exLeafPlain = "m:plain" ∧
    qualify_name exContainerParent exLeafAug = "other-mod:aug" ∧
    qualify_name exContainerParent exLeafPlain = "plain" :=
  ⟨(C6_qualifier_rules exContainerParent exActionDeep).1 (Or.inr rfl),
   (C6_qualifier_rules exModule exLeafPlain).2.1 (Or.inl rfl),
   (C6_qualifier_rules exContainerParent exLeafAug).2.2.1 (by decide),
   (C6_qualifier_rules exContainerParent exLeafPlain).2.2.2 (by decide)
     (by decide) (by decide) (by decide) rfl⟩

/-! ### Claim C9 -/

/-- C9: the compiler is deterministic — `emit` resets `self.definitions`
(line 57) before both passes, so two runs over the same modules and options
produce the same serialized document char for char, whatever registry state
an earlier run left behind. -/
theorem C9_emit_deterministic (env : TdEnv) (opts : Opts) (fuel : Nat)
    (modules : List Stmt) (prev1 prev2 : Defs) :
    emit env opts fuel modules prev1 = emit env opts fuel modules prev2 := rfl

/-! ### Claim C10 -/

theorem annotate_obj_keeps_description (s : Stmt) (fs : List (String × JVal))
    (h : (lookupAssoc fs "description").isSome) :
    (lookupObjKey (annotate_obj s (JVal.obj fs)) "description").isSome := by
  simp only [annotate_obj]
  by_cases hd : (desc_list s).isEmpty
  · simpa [hd, lookupObjKey]
  · rw [if_neg hd]
    simp only [setObjKey, lookupObjKey]
    rw [lookupAssoc_setAssoc_self]
    rfl

/-- C10: the Annotator modifies at most the `description` key — every other
key of a present fragment is returned unchanged; when the node has no
description statement, no enumeration-value descriptions and no `when`
conditions, the fragment is returned exactly as given (no empty
`description` is added); the absent sentinel passes through; and an
operation schema always carries a `description` key because
`produce_operation` pre-sets it (to the node's description or `""`). -/
theorem C10_annotator_frame (stmt : Stmt) (fs : List (String × JVal)) (v : JVal)
    (env : TdEnv) (opts : Opts) (fuel : Nat) (op : Stmt) (defs defs' : Defs)
    (r : JVal) :
    (∀ k, k ≠ "description" →
       lookupObjKey (annotate_obj stmt (JVal.obj fs)) k = lookupAssoc fs k) ∧
    (stmt.search_one "description" = none → enum_desc_block stmt = [] →
       stmt.search "when" = [] → annotate_obj stmt v = v) ∧
    (annotate_schema stmt none = none) ∧
    (produce_operation env opts fuel op defs = some (r, defs') →
       (lookupObjKey r "description").isSome) := by
  refine ⟨?_, ?_, rfl, ?_⟩
  · intro k hk
    simp only [annotate_obj]
    by_cases hd : (desc_list stmt).isEmpty
    · simp [hd, lookupObjKey]
    · rw [if_neg hd]
      simp only [setObjKey, lookupObjKey]
      exact lookupAssoc_setAssoc_ne fs "description" k _ (Ne.symm hk)
  · intro h1 h2 h3
    unfold annotate_obj
    have : desc_list stmt = [] := by
      unfold desc_list
      rw [h1, h2, h3]
      rfl
    simp [this]
  · intro h
    rw [produce_operation] at h
    split at h
    · exact absurd h (by simp)
    · rename_i props1 d1 hstep1
      split at h
      · exact absurd h (by simp)
      · rename_i props2 d2 hstep2
        obtain ⟨hr, -⟩ := Prod.mk.injEq .. ▸ Option.some.inj h
        subst hr
        exact annotate_obj_keeps_description op _ (by simp [lookupAssoc])

/-- Witness for C10: a described leaf's fragment keeps its `type` key
untouched, a plain leaf's fragment is returned exactly as given, and a
concrete RPC schema carries a `description` key. -/
theorem C10_annotator_frame_witness :
    lookupObjKey (annotate_obj exLeafDescribed (JVal.obj [("type", JVal.str "string")]))
      "type" = lookupAssoc [("type", JVal.str "string")] "type" ∧
    annotate_obj exLeafPlain strFrag = strFrag ∧
    produce_operation [] exOpts 10 exRpc [] =
      some (JVal.obj
        [("type", JVal.str "object"), ("description", JVal.str ""),
         ("properties", JVal.obj
           [("output", JVal.obj
              [("type", JVal.str "object"),
               ("properties", JVal.obj [("ro", strFrag)]),
               ("additionalProperties", JVal.bool false)])]),
         ("additionalProperties", JVal.bool false)], []) ∧
    (lookupObjKey (JVal.obj
        [("type", JVal.str "object"), ("description", JVal.str ""),
         ("properties", JVal.obj
           [("output", JVal.obj
              [("type", JVal.str "object"),
               ("properties", JVal.obj [("ro", strFrag)]),
               ("additionalProperties", JVal.bool false)])]),
         ("additionalProperties", JVal.bool false)]) "description").isSome :=
  ⟨(C10_annotator_frame exLeafDescribed [("type", JVal.str "string")] strFrag
      [] exOpts 10 exRpc [] [] strFrag).1 "type" (by decide),
   (C10_annotator_frame exLeafPlain [] strFrag [] exOpts 10 exRpc [] []
      strFrag).2.1 rfl rfl rfl,
   rfl,
   (C10_annotator_frame exLeafPlain [] strFrag [] exOpts 10 exRpc [] []
      _).2.2.2 rfl⟩

/-! ### Claim C7: config filtering -/

theorem pruneCfg_keyword (s : Stmt) : (pruneCfg s).keyword = s.keyword := by
  cases s; rw [pruneCfg]; rfl

theorem pruneCfg_arg (s : Stmt) : (pruneCfg s).arg = s.arg := by
  cases s; rw [pruneCfg]; rfl

theorem pruneCfg_i_module (s : Stmt) : (pruneCfg s).i_module = s.i_module := by
  cases s; rw [pruneCfg]; rfl

theorem pruneCfg_substmts (s : Stmt) : (pruneCfg s).substmts = s.substmts := by
  cases s; rw [pruneCfg]; rfl

theorem pruneCfg_i_config (s : Stmt) : (pruneCfg s).i_config = s.i_config := by
  cases s; rw [pruneCfg]; rfl

theorem pruneCfg_i_children (s : Stmt) :
    (pruneCfg s).i_children = pruneCfgList s.i_children := by
  cases s; rw [pruneCfg]; rfl

theorem search_pruneCfg (s : Stmt) (kw : String) :
    (pruneCfg s).search kw = s.search kw := by
  rw [Stmt.search, Stmt.search, pruneCfg_substmts]

theorem search_one_pruneCfg (s : Stmt) (kw : String) :
    (pruneCfg s).search_one kw = s.search_one kw := by
  rw [Stmt.search_one, Stmt.search_one, search_pruneCfg]

theorem enum_desc_block_pruneCfg (s : Stmt) :
    enum_desc_block (pruneCfg s) = enum_desc_block s := by
  rw [enum_desc_block, enum_desc_block, search_one_pruneCfg]

theorem desc_list_pruneCfg (s : Stmt) : desc_list (pruneCfg s) = desc_list s := by
  rw [desc_list, desc_list, search_one_pruneCfg, enum_desc_block_pruneCfg,
    search_pruneCfg]

theorem annotate_obj_pruneCfg (s : Stmt) (v : JVal) :
    annotate_obj (pruneCfg s) v = annotate_obj s v := by
  rw [annotate_obj, annotate_obj, desc_list_pruneCfg]

theorem qualify_name_pruneCfg (parent c : Stmt) :
    qualify_name (pruneCfg parent) (pruneCfg c) = qualify_name parent c := by
  simp only [qualify_name, pruneCfg_keyword, pruneCfg_arg, pruneCfg_i_module]

theorem produce_leaf_pruneCfg (env : TdEnv) (opts : Opts) (fuel : Nat) (c : Stmt)
    (cf1 cf2 : Bool) (defs : Defs) :
    produce_leaf env opts fuel (pruneCfg c) cf1 defs =
      produce_leaf env opts fuel c cf2 defs := by
  rw [produce_leaf, produce_leaf, search_one_pruneCfg]
  cases produce_type env opts fuel (c.search_one "type") defs with
  | none => rfl
  | some r => simp only [annotate_obj_pruneCfg]

theorem produce_leaf_list_pruneCfg (env : TdEnv) (opts : Opts) (fuel : Nat)
    (c : Stmt) (cf1 cf2 : Bool) (defs : Defs) :
    produce_leaf_list env opts fuel (pruneCfg c) cf1 defs =
      produce_leaf_list env opts fuel c cf2 defs := by
  rw [produce_leaf_list, produce_leaf_list, search_one_pruneCfg]
  cases produce_type env opts fuel (c.search_one "type") defs with
  | none => rfl
  | some r => simp only [annotate_obj_pruneCfg]

theorem produce_children_list_pruneCfg
    (f : Stmt → Bool → Defs → Option (Option JVal × Defs)) (parent : Stmt)
    (hf : ∀ c defs, f c true defs = f (pruneCfg c) false defs) :
    ∀ (cs : List Stmt) (props : Props) (defs : Defs),
      produce_children_list f parent cs true props defs =
        produce_children_list f (pruneCfg parent) (pruneCfgList cs) false
          props defs := by
  intro cs
  induction cs with
  | nil => intro props defs; rw [pruneCfgList]; rfl
  | cons c rest ih =>
    intro props defs
    by_cases hc : c.i_config = some false
    · rw [pruneCfgList, if_pos hc, produce_children_list, if_pos ⟨rfl, hc⟩]
      exact ih props defs
    · rw [pruneCfgList, if_neg hc]
      simp only [produce_children_list, pruneCfg_keyword, pruneCfg_i_config, hc,
        and_false, false_and, if_false, qualify_name_pruneCfg]
      by_cases hk : producerKeywords.contains c.keyword
      · rw [if_pos hk, if_pos hk, ← hf c defs]
        cases hres : f c true defs with
        | none => rfl
        | some r =>
          obtain ⟨oschema, d1⟩ := r
          cases oschema with
          | some schema =>
            exact ih (setAssoc props (qualify_name parent c) schema) d1
          | none =>
            exact ih props d1
      · rw [if_neg hk, if_neg hk]
        exact ih props defs

theorem produce_node_pruneCfg (env : TdEnv) (opts : Opts) : ∀ (fuel : Nat)
    (c : Stmt) (defs : Defs),
    produce_node env opts fuel c true defs =
      produce_node env opts fuel (pruneCfg c) false defs := by
  intro fuel
  induction fuel with
  | zero => intro c defs; rfl
  | succ n ih =>
    intro c defs
    rw [produce_node, produce_node, pruneCfg_keyword]
    split_ifs with h1 h2 h3 h4 h5 h6
    · rw [produce_container, produce_container, pruneCfg_i_children,
        produce_children_list_pruneCfg (produce_node env opts n) c
          (fun c d => ih c d) c.i_children [] defs]
      cases produce_children_list (produce_node env opts n) (pruneCfg c)
          (pruneCfgList c.i_children) false [] defs with
      | none => rfl
      | some r => simp only [annotate_obj_pruneCfg]
    · rw [produce_list, produce_list, pruneCfg_i_children,
        produce_children_list_pruneCfg (produce_node env opts n) c
          (fun c d => ih c d) c.i_children [] defs]
      cases produce_children_list (produce_node env opts n) (pruneCfg c)
          (pruneCfgList c.i_children) false [] defs with
      | none => rfl
      | some r => simp only [annotate_obj_pruneCfg]
    · exact (produce_leaf_list_pruneCfg env opts n c false true defs).symm
    · exact (produce_leaf_pruneCfg env opts n c false true defs).symm
    · rfl
    · rfl
    · rfl

theorem mapCfg_keyword (f : Option Bool → Option Bool) (s : Stmt) :
    (mapCfg f s).keyword = s.keyword := by
  cases s; rw [mapCfg]; rfl

theorem mapCfg_arg (f : Option Bool → Option Bool) (s : Stmt) :
    (mapCfg f s).arg = s.arg := by
  cases s; rw [mapCfg]; rfl

theorem mapCfg_i_module (f : Option Bool → Option Bool) (s : Stmt) :
    (mapCfg f s).i_module = s.i_module := by
  cases s; rw [mapCfg]; rfl

theorem mapCfg_i_typedef (f : Option Bool → Option Bool) (s : Stmt) :
    (mapCfg f s).i_typedef = s.i_typedef := by
  cases s; rw [mapCfg]; rfl

theorem mapCfg_substmts (f : Option Bool → Option Bool) (s : Stmt) :
    (mapCfg f s).substmts = mapCfgList f s.substmts := by
  cases s; rw [mapCfg]; rfl

theorem mapCfg_i_children (f : Option Bool → Option Bool) (s : Stmt) :
    (mapCfg f s).i_children = mapCfgList f s.i_children := by
  cases s; rw [mapCfg]; rfl

theorem mapCfgList_filter_keyword (f : Option Bool → Option Bool) (kw : String) :
    ∀ ss : List Stmt,
      (mapCfgList f ss).filter (fun c => c.keyword = kw) =
        mapCfgList f (ss.filter (fun c => c.keyword = kw)) := by
  intro ss
  induction ss with
  | nil => rw [mapCfgList]; rfl
  | cons c cs ih =>
    rw [mapCfgList]
    by_cases h : c.keyword = kw
    · rw [List.filter_cons_of_pos (by simpa [mapCfg_keyword] using h),
        List.filter_cons_of_pos (by simpa using h), mapCfgList, ih]
    · rw [List.filter_cons_of_neg (by simpa [mapCfg_keyword] using h),
        List.filter_cons_of_neg (by simpa using h), ih]

theorem search_mapCfg (f : Option Bool → Option Bool) (s : Stmt) (kw : String) :
    (mapCfg f s).search kw = mapCfgList f (s.search kw) := by
  rw [Stmt.search, Stmt.search, mapCfg_substmts, mapCfgList_filter_keyword]

theorem head_mapCfgList (f : Option Bool → Option Bool) (l : List Stmt) :
    (mapCfgList f l).head? = l.head?.map (mapCfg f) := by
  cases l with
  | nil => rw [mapCfgList]; rfl
  | cons c cs => rw [mapCfgList]; rfl

theorem search_one_mapCfg (f : Option Bool → Option Bool) (s : Stmt)
    (kw : String) :
    (mapCfg f s).search_one kw = (s.search_one kw).map (mapCfg f) := by
  rw [Stmt.search_one, Stmt.search_one, search_mapCfg, head_mapCfgList]

theorem resolveTypedef_mapCfg (env : TdEnv) (f : Option Bool → Option Bool)
    (t : Stmt) : resolveTypedef env (mapCfg f t) = resolveTypedef env t := by
  rw [resolveTypedef, resolveTypedef, mapCfg_i_typedef]

theorem mapCfgList_map_str_arg (f : Option Bool → Option Bool) :
    ∀ es : List Stmt,
      (mapCfgList f es).map (fun e => JVal.str e.arg) =
        es.map (fun e => JVal.str e.arg) := by
  intro es
  induction es with
  | nil => rw [mapCfgList]
  | cons e es ih => rw [mapCfgList, List.map_cons, List.map_cons, mapCfg_arg, ih]

theorem mapCfgList_map_condition (f : Option Bool → Option Bool) :
    ∀ ws : List Stmt,
      (mapCfgList f ws).map (fun w => "Condition: " ++ w.arg) =
        ws.map (fun w => "Condition: " ++ w.arg) := by
  intro ws
  induction ws with
  | nil => rw [mapCfgList]
  | cons w ws ih => rw [mapCfgList, List.map_cons, List.map_cons, mapCfg_arg, ih]

theorem mapCfgList_filterMap_enum_descs (f : Option Bool → Option Bool) :
    ∀ es : List Stmt,
      (mapCfgList f es).filterMap (fun en =>
          (en.search_one "description").map
            (fun d => en.arg ++ ": " ++ d.arg.trim)) =
        es.filterMap (fun en =>
          (en.search_one "description").map
            (fun d => en.arg ++ ": " ++ d.arg.trim)) := by
  intro es
  induction es with
  | nil => rw [mapCfgList]
  | cons en es ih =>
    rw [mapCfgList, List.filterMap_cons, List.filterMap_cons,
      search_one_mapCfg, mapCfg_arg]
    cases hd : en.search_one "description" with
    | none => simpa using ih
    | some d => simp only [Option.map_some', mapCfg_arg]; rw [ih]

theorem enum_desc_block_mapCfg (f : Option Bool → Option Bool) (s : Stmt) :
    enum_desc_block (mapCfg f s) = enum_desc_block s := by
  rw [enum_desc_block, enum_desc_block, search_one_mapCfg]
  cases hts : s.search_one "type" with
  | none => rfl
  | some ts =>
    simp only [Option.map_some', mapCfg_arg, search_mapCfg,
      mapCfgList_filterMap_enum_descs]

theorem desc_list_mapCfg (f : Option Bool → Option Bool) (s : Stmt) :
    desc_list (mapCfg f s) = desc_list s := by
  rw [desc_list, desc_list, search_one_mapCfg, enum_desc_block_mapCfg,
    search_mapCfg, mapCfgList_map_condition]
  cases hd : s.search_one "description" with
  | none => rfl
  | some d => simp only [Option.map_some', mapCfg_arg]

theorem annotate_obj_mapCfg (f : Option Bool → Option Bool) (s : Stmt)
    (v : JVal) : annotate_obj (mapCfg f s) v = annotate_obj s v := by
  rw [annotate_obj, annotate_obj, desc_list_mapCfg]

theorem qualify_name_mapCfg (f : Option Bool → Option Bool) (parent c : Stmt) :
    qualify_name (mapCfg f parent) (mapCfg f c) = qualify_name parent c := by
  simp only [qualify_name, mapCfg_keyword, mapCfg_arg, mapCfg_i_module]

theorem produce_type_list_mapCfg (g : Stmt → Defs → Option (JVal × Defs))
    (f : Option Bool → Option Bool)
    (hg : ∀ m d, g (mapCfg f m) d = g m d) :
    ∀ (ms : List Stmt) (defs : Defs),
      produce_type_list g (mapCfgList f ms) defs =
        produce_type_list g ms defs := by
  intro ms
  induction ms with
  | nil => intro defs; rw [mapCfgList]
  | cons m rest ih =>
    intro defs
    rw [mapCfgList, produce_type_list, produce_type_list, hg]
    simp only [ih]

theorem produce_type_mapCfg (env : TdEnv) (opts : Opts)
    (f : Option Bool → Option Bool) : ∀ (fuel : Nat) (ot : Option Stmt)
    (defs : Defs),
    produce_type env opts fuel (ot.map (mapCfg f)) defs =
      produce_type env opts fuel ot defs := by
  intro fuel
  induction fuel with
  | zero => intro ot defs; cases ot <;> rfl
  | succ n ih =>
    intro ot defs
    cases ot with
    | none => rfl
    | some t =>
      show produce_type env opts (n + 1) (some (mapCfg f t)) defs = _
      rw [produce_type, produce_type, resolveTypedef_mapCfg]
      cases hr : resolveTypedef env t with
      | some typedef => rfl
      | none =>
        simp only [mapCfg_arg, search_one_mapCfg, search_mapCfg]
        split_ifs with c1 c2 c3 c4 c5 c6 c7 c8
        · rfl
        · rfl
        · rfl
        · cases hp : t.search_one "pattern" with
          | none => rfl
          | some p => simp only [Option.map_some', mapCfg_arg]
        · rfl
        · rw [mapCfgList_map_str_arg]
        · rfl
        · rw [produce_type_list_mapCfg
            (fun m d => produce_type env opts n (some m) d) f
            (fun m d => ih (some m) d)]
        · rfl

theorem produce_leaf_mapCfg (env : TdEnv) (opts : Opts)
    (f : Option Bool → Option Bool) (fuel : Nat) (c : Stmt) (cf : Bool)
    (defs : Defs) :
    produce_leaf env opts fuel (mapCfg f c) cf defs =
      produce_leaf env opts fuel c cf defs := by
  rw [produce_leaf, produce_leaf, search_one_mapCfg,
    produce_type_mapCfg env opts f fuel (c.search_one "type") defs]
  cases produce_type env opts fuel (c.search_one "type") defs with
  | none => rfl
  | some r => simp only [annotate_obj_mapCfg]

theorem produce_leaf_list_mapCfg (env : TdEnv) (opts : Opts)
    (f : Option Bool → Option Bool) (fuel : Nat) (c : Stmt) (cf : Bool)
    (defs : Defs) :
    produce_leaf_list env opts fuel (mapCfg f c) cf defs =
      produce_leaf_list env opts fuel c cf defs := by
  rw [produce_leaf_list, produce_leaf_list, search_one_mapCfg,
    produce_type_mapCfg env opts f fuel (c.search_one "type") defs]
  cases produce_type env opts fuel (c.search_one "type") defs with
  | none => rfl
  | some r => simp only [annotate_obj_mapCfg]

theorem produce_children_list_mapCfg
    (g : Stmt → Bool → Defs → Option (Option JVal × Defs))
    (f : Option Bool → Option Bool) (parent : Stmt)
    (hg : ∀ c defs, g (mapCfg f c) false defs = g c false defs) :
    ∀ (cs : List Stmt) (props : Props) (defs : Defs),
      produce_children_list g (mapCfg f parent) (mapCfgList f cs) false
          props defs =
        produce_children_list g parent cs false props defs := by
  intro cs
  induction cs with
  | nil => intro props defs; rw [mapCfgList]; rfl
  | cons c rest ih =>
    intro props defs
    rw [mapCfgList]
    simp only [produce_children_list, mapCfg_keyword, false_and, if_false,
      qualify_name_mapCfg]
    by_cases hk : producerKeywords.contains c.keyword
    · rw [if_pos hk, if_pos hk, hg c defs]
      cases hres : g c false defs with
      | none => rfl
      | some r =>
        obtain ⟨oschema, d1⟩ := r
        cases oschema with
        | some schema => exact ih (setAssoc props (qualify_name parent c) schema) d1
        | none => exact ih props d1
    · rw [if_neg hk, if_neg hk]
      exact ih props defs

theorem produce_node_mapCfg (env : TdEnv) (opts : Opts)
    (f : Option Bool → Option Bool) : ∀ (fuel : Nat) (c : Stmt) (defs : Defs),
    produce_node env opts fuel (mapCfg f c) false defs =
      produce_node env opts fuel c false defs := by
  intro fuel
  induction fuel with
  | zero => intro c defs; rfl
  | succ n ih =>
    intro c defs
    rw [produce_node, produce_node, mapCfg_keyword]
    split_ifs with h1 h2 h3 h4 h5 h6
    · rw [produce_container, produce_container, mapCfg_i_children,
        produce_children_list_mapCfg (produce_node env opts n) f c
          (fun c d => ih c d) c.i_children [] defs]
      cases produce_children_list (produce_node env opts n) c c.i_children
          false [] defs with
      | none => rfl
      | some r => simp only [annotate_obj_mapCfg]
    · rw [produce_list, produce_list, mapCfg_i_children,
        produce_children_list_mapCfg (produce_node env opts n) f c
          (fun c d => ih c d) c.i_children [] defs]
      cases produce_children_list (produce_node env opts n) c c.i_children
          false [] defs with
      | none => rfl
      | some r => simp only [annotate_obj_mapCfg]
    · exact produce_leaf_list_mapCfg env opts f n c false defs
    · exact produce_leaf_mapCfg env opts f n c false defs
    · rfl
    · rfl
    · rfl

theorem produce_children_mapCfg (env : TdEnv) (opts : Opts)
    (f : Option Bool → Option Bool) (fuel : Nat) (stmt : Stmt) (defs : Defs) :
    produce_children env opts fuel (mapCfg f stmt) false defs =
      produce_children env opts fuel stmt false defs := by
  rw [produce_children, produce_children, mapCfg_i_children]
  exact produce_children_list_mapCfg (produce_node env opts fuel) f stmt
    (fun c d => produce_node_mapCfg env opts f fuel c d) stmt.i_children [] defs

theorem produce_operation_mapCfg (env : TdEnv) (opts : Opts)
    (f : Option Bool → Option Bool) (fuel : Nat) (stmt : Stmt) (defs : Defs) :
    produce_operation env opts fuel (mapCfg f stmt) defs =
      produce_operation env opts fuel stmt defs := by
  rw [produce_operation, produce_operation, search_one_mapCfg, search_one_mapCfg,
    search_one_mapCfg]
  cases hd : stmt.search_one "description" with
  | none =>
    cases hi : stmt.search_one "input" with
    | none =>
      cases ho : stmt.search_one "output" with
      | none => simp only [Option.map_none', annotate_obj_mapCfg]
      | some o =>
        simp only [Option.map_none', Option.map_some', produce_children_mapCfg,
          annotate_obj_mapCfg]
    | some i =>
      cases ho : stmt.search_one "output" with
      | none =>
        simp only [Option.map_none', Option.map_some', produce_children_mapCfg,
          annotate_obj_mapCfg]
      | some o =>
        simp only [Option.map_none', Option.map_some', produce_children_mapCfg,
          annotate_obj_mapCfg]
  | some d =>
    cases hi : stmt.search_one "input" with
    | none =>
      cases ho : stmt.search_one "output" with
      | none =>
        simp only [Option.map_none', Option.map_some', mapCfg_arg,
          annotate_obj_mapCfg]
      | some o =>
        simp only [Option.map_none', Option.map_some', mapCfg_arg,
          produce_children_mapCfg, annotate_obj_mapCfg]
    | some i =>
      cases ho : stmt.search_one "output" with
      | none =>
        simp only [Option.map_none', Option.map_some', mapCfg_arg,
          produce_children_mapCfg, annotate_obj_mapCfg]
      | some o =>
        simp only [Option.map_none', Option.map_some', mapCfg_arg,
          produce_children_mapCfg, annotate_obj_mapCfg]

/-- C7: with the config filter set, compiling a subtree equals compiling the
subtree with every explicitly config-false node (and hence its whole
descendant subtree) deleted and no filter at all — the filter flag is
threaded unchanged into every recursive call; and operations are never
config-filtered: `produce_operation` compiles `input`/`output` with the
filter unset and its result is invariant under arbitrarily rewriting every
config flag in the tree, so a flag-false node inside an rpc's input or
output is treated exactly like a flag-true one. -/
theorem C7_config_filtering (env : TdEnv) (opts : Opts) (fuel : Nat)
    (stmt : Stmt) (defs : Defs) (f : Option Bool → Option Bool) :
    (produce_children env opts fuel stmt true defs =
       produce_children env opts fuel (pruneCfg stmt) false defs) ∧
    (produce_operation env opts fuel (mapCfg f stmt) defs =
       produce_operation env opts fuel stmt defs) := by
  constructor
  · rw [produce_children, produce_children, pruneCfg_i_children]
    exact produce_children_list_pruneCfg (produce_node env opts fuel) stmt
      (fun c d => produce_node_pruneCfg env opts fuel c d) stmt.i_children [] defs
  · exact produce_operation_mapCfg env opts f fuel stmt defs
